import Mathlib

/-!
# Verification of the workflow variable-resolution core

A shallow embedding, in Lean 4, of the variable-resolution and
execution-state-tracking core of the repository:

* `api/core/workflow/entities/variable_pool.py` — the `VariablePool`
  (selector-addressed store, template expansion, derived file attributes),
* `api/core/workflow/entities/workflow_entities.py` — `WorkflowRunState`,
* `api/core/workflow/entities/node_entities.py` — `NodeRunResult`.

The value-segment model (`core.variables`, `factories.variable_factory`,
`core.file`) is not part of the sources of this tree; those collaborators
are modelled from the specification, and each such definition says so in
its doc comment.

Python data is embedded as follows: dictionaries become functions to
`Option`, raised exceptions become `Except`, `None` results become
`Option.none`, and the regular expression `VARIABLE_PATTERN` becomes an
explicit character automaton (`runPath`) together with a `re.split`
analogue (`variablePatternSplit`).
-/

namespace Dify

/-! ## Characters and the placeholder pattern

The template pattern of `variable_pool.py` line 20 is

  `\{\{#([a-zA-Z0-9_]{1,50}(?:\.[a-zA-Z_][a-zA-Z0-9_]{0,29}){1,10})#\}\}`

Because every character class of the pattern excludes both `.` and `#`,
the greedy backtracking search of Python's `re` engine is equivalent to
the deterministic automaton below: a run of identifier characters can
never shrink to expose a separator, so any dead end of the automaton is a
dead end of the regex as well. -/

/-- The opening-brace character, written via its code point. -/
def charLB : Char := Char.ofNat 123

/-- The closing-brace character, written via its code point. -/
def charRB : Char := Char.ofNat 125

/-- Membership in the class `[a-zA-Z0-9_]` of the pattern. -/
def idChar (c : Char) : Bool := c.isAlpha || c.isDigit || c = '_'

/-- Membership in the class `[a-zA-Z_]` that opens every later segment. -/
def startChar (c : Char) : Bool := c.isAlpha || c = '_'

/-- States of the placeholder automaton: inside the first path segment
(`seg1 n` after `n` characters), at the opening character of dot-group
`k` (`gstart k`), inside dot-group `k` after `n` characters
(`gbody k n`), and within the closing `#` + two braces (`end1`, `end2`). -/
inductive PathState where
  | seg1 (n : Nat)
  | gstart (k : Nat)
  | gbody (k : Nat) (n : Nat)
  | end1
  | end2
deriving DecidableEq

/-- Prepend a consumed capture character to a parse result. -/
def pushChar (c : Char) : Option (List Char × List Char) → Option (List Char × List Char)
  | some (p, r) => some (c :: p, r)
  | Option.none => Option.none

/-- The deterministic automaton for the body of `VARIABLE_PATTERN`,
entered just after the opening braces and `#`.  On success it returns the
captured path (group 1 of the regex) and the characters after the closing
braces. -/
def runPath : PathState → List Char → Option (List Char × List Char)
  | _, [] => Option.none
  | PathState.seg1 n, c :: rest =>
    if idChar c ∧ n < 50 then pushChar c (runPath (PathState.seg1 (n + 1)) rest)
    else if c = '.' ∧ 1 ≤ n then pushChar c (runPath (PathState.gstart 1) rest)
    else Option.none
  | PathState.gstart k, c :: rest =>
    if startChar c then pushChar c (runPath (PathState.gbody k 1) rest)
    else Option.none
  | PathState.gbody k n, c :: rest =>
    if idChar c ∧ n < 30 then pushChar c (runPath (PathState.gbody k (n + 1)) rest)
    else if c = '.' ∧ k < 10 then pushChar c (runPath (PathState.gstart (k + 1)) rest)
    else if c = '#' then runPath PathState.end1 rest
    else Option.none
  | PathState.end1, c :: rest => if c = charRB then runPath PathState.end2 rest else Option.none
  | PathState.end2, c :: rest => if c = charRB then some ([], rest) else Option.none

/-- Anchored match of the full `VARIABLE_PATTERN` at the head of the
input: two opening braces, `#`, the path, `#`, two closing braces.
Returns the captured path and the remainder of the input. -/
def parsePlaceholder : List Char → Option (List Char × List Char)
  | c1 :: c2 :: c3 :: rest =>
    if c1 = charLB ∧ c2 = charLB ∧ c3 = '#' then runPath (PathState.seg1 0) rest
    else Option.none
  | _ => Option.none

/-- Leftmost occurrence of the pattern, as Python's `re` scan finds it:
try an anchored match at every position from the left.  Returns the text
before the match, the captured path, and the text after the match. -/
def findPlaceholder : List Char → Option (List Char × List Char × List Char)
  | [] => Option.none
  | c :: cs =>
    match parsePlaceholder (c :: cs) with
    | some (path, rest) => some ([], path, rest)
    | Option.none =>
      match findPlaceholder cs with
      | some (before, path, rest) => some (c :: before, path, rest)
      | Option.none => Option.none

/-- Fuelled worker for `variablePatternSplit`.  The fuel only bounds the
recursion depth (each placeholder consumes at least nine characters, so
`length + 1` steps always suffice); it is not part of the modelled
behaviour. -/
def patternSplitAux : Nat → List Char → List String
  | 0, cs => [String.mk cs]
  | fuel + 1, cs =>
    match findPlaceholder cs with
    | Option.none => [String.mk cs]
    | some (before, path, rest) => String.mk before :: String.mk path :: patternSplitAux fuel rest

/-- `re.split(VARIABLE_PATTERN, template)`: the pieces of the input around
each placeholder, with the captured path of every placeholder kept as a
piece of its own (the pattern has exactly one capture group). -/
def variablePatternSplit (cs : List Char) : List String :=
  patternSplitAux (cs.length + 1) cs

/-- Worker for `splitDotChar`, accumulating the current chunk reversed. -/
def splitDotAux : List Char → List Char → List (List Char)
  | cur, [] => [cur.reverse]
  | cur, c :: rest =>
    if c = '.' then cur.reverse :: splitDotAux [] rest else splitDotAux (c :: cur) rest

/-- Split a character list on every dot, keeping empty chunks — the
behaviour of Python's `str.split(".")`. -/
def splitDotChar (cs : List Char) : List (List Char) := splitDotAux [] cs

/-- Python's `part.split(".")` on strings. -/
def pySplitDot (s : String) : List String := (splitDotChar s.data).map String.mk

/-- Python's `"." in part`. -/
def hasDot (s : String) : Bool := s.data.any (fun c => c = '.')

/-! ## The value-segment model

`core.variables`, `core.file` and `factories.variable_factory` are
collaborators of the pool that are not part of this source tree; the
definitions of this section are therefore modelled from the
specification (its §3 "Data Model" and §6 "External Interfaces"). -/

/-- Modelled from the spec: a file value, carrying the derived attributes
the spec names — an extension and a size (`core.file.File` is not in the
tree). -/
structure File where
  filename : String
  extension : String
  size : Int
deriving DecidableEq

/-- Modelled from the spec: the closed set of typed immutable values —
string, number, object, array, file, none (`core.variables` is not in the
tree).  Groups, which the spec lists as produced only by template
expansion, are the separate `SegmentGroup` below. -/
inductive SegValue where
  | str (s : String)
  | num (n : Int)
  | obj (fields : List (String × SegValue))
  | arr (items : List SegValue)
  | file (f : File)
  | none

/-- Modelled from the spec: a segment is a typed immutable value; a
variable is a segment with an attached name and owning selector, so a
segment carries an optional name and selector and is a variable exactly
when the name is present.  This mirrors the Python class hierarchy in
which every `Variable` subclass is also a `Segment` subclass of the same
value kind. -/
structure Segment where
  value : SegValue
  name : Option String := Option.none
  selector : List String := []

/-- Is this segment a variable (Python `isinstance(value, Variable)`)? -/
def Segment.isVariable (seg : Segment) : Bool := seg.name.isSome

/-- Modelled from the spec: an ordered group of segments, the result type
of template expansion. -/
structure SegmentGroup where
  value : List Segment

/-- Modelled from the spec: a raw Python value accepted by the pool —
`str | int | float | dict | list | File`, plus `None`.  Structured raw
values are modelled with already-normalized children, since the
normalizing factory is itself modelled and no claim exercises nested
normalization; numbers are modelled as integers. -/
inductive RawValue where
  | str (s : String)
  | int (n : Int)
  | obj (fields : List (String × SegValue))
  | arr (items : List SegValue)
  | file (f : File)
  | none

/-- Modelled from the spec: the typed value the normalizing factory gives
a raw value. -/
def RawValue.toSegValue : RawValue → SegValue
  | RawValue.str s => SegValue.str s
  | RawValue.int n => SegValue.num n
  | RawValue.obj fields => SegValue.obj fields
  | RawValue.arr items => SegValue.arr items
  | RawValue.file f => SegValue.file f
  | RawValue.none => SegValue.none

/-- Modelled from the spec: `variable_factory.build_segment`, the
normalizing constructor from raw values to typed segments. -/
def build_segment (value : RawValue) : Segment :=
  { value := RawValue.toSegValue value }

/-- Modelled from the spec: `variable_factory.segment_to_variable` — a
variable is returned unchanged (`add` "accepts a Variable directly"),
any other segment becomes a variable named after the selector's last
element and bound to the selector. -/
def segment_to_variable (seg : Segment) (selector : List String) : Segment :=
  match seg.name with
  | some _ => seg
  | Option.none => { seg with name := some (selector.getLastD ""), selector := selector }

/-- Modelled from the spec: the string rendering of a segment (`.text` in
the Python value model).  Only string and number segments are rendered by
the claims; the remaining kinds render as their text form is not
constrained by the spec and is taken to be empty here. -/
def Segment.text (seg : Segment) : String :=
  match seg.value with
  | SegValue.str s => s
  | SegValue.num n => toString n
  | _ => ""

/-- Modelled from the spec: a segment group renders by concatenating the
renderings of its members, in order. -/
def SegmentGroup.text (g : SegmentGroup) : String :=
  String.join (g.value.map Segment.text)

/-- Modelled from the spec: the value names of the enumeration
`FileAttribute` of derived file attributes; the spec names an extension
and a size. -/
def fileAttributeValues : List String := ["extension", "size"]

/-- Modelled from the spec: `file_manager.get_attr`, computing a derived
attribute's value from a file. -/
def file_get_attr (f : File) (attr : String) : RawValue :=
  if attr = "extension" then RawValue.str f.extension
  else if attr = "size" then RawValue.int f.size
  else RawValue.none

/-! ## The variable pool

Embedding of `api/core/workflow/entities/variable_pool.py`.  The
two-level `variable_dictionary` (a `defaultdict` of scope dictionaries
keyed by `hash(tuple(selector[1:]))`) is embedded as a total function
from scope to a function from path tail to an optional segment: the
`defaultdict` makes every scope observably present with a default empty
inner dictionary, and the inner hash key is modelled by the path tail
itself.  The spec (§3, §9) accepts silent hash collisions between
distinct tails as a design risk of the source scheme; the embedding keys
by the tail directly, which is the collision-free reading the spec
recommends. -/

/-- A value passed to `VariablePool.add`: a `Variable`, another
`Segment`, or a raw value — the three cases `add` dispatches on. -/
inductive PoolValue where
  | var (v : Segment)
  | seg (s : Segment)
  | raw (r : RawValue)

/-- The variable pool: the selector-addressed store (`VariablePool`,
lines 23–197 of `variable_pool.py`).  Only `variable_dictionary` takes
part in the claimed operations; `user_inputs` and the seed variable
sequences are retained for reference only. -/
structure VariablePool where
  variable_dictionary : String → List String → Option Segment

/-- A pool with an empty `variable_dictionary`. -/
def emptyPool : VariablePool := ⟨fun _ _ => Option.none⟩

/-- Update one entry of the two-level dictionary
(`self.variable_dictionary[selector[0]][hash_key] = variable`). -/
def dictInsert (scope : String) (key : List String) (v : Segment)
    (d : String → List String → Option Segment) : String → List String → Option Segment :=
  fun s k => if s = scope then (if k = key then some v else d s k) else d s k

/-- Remove one entry of the two-level dictionary
(`self.variable_dictionary[selector[0]].pop(hash_key, None)`). -/
def dictPop (scope : String) (key : List String)
    (d : String → List String → Option Segment) : String → List String → Option Segment :=
  fun s k => if s = scope then (if k = key then Option.none else d s k) else d s k

/-- The entry directly stored for a selector: scope `selector[0]`, inner
key `selector[1:]`
(`self.variable_dictionary[selector[0]].get(hash_key)`). -/
def VariablePool.entryAt (pool : VariablePool) (selector : List String) : Option Segment :=
  pool.variable_dictionary (selector.headD "") selector.tail

/-- `VariablePool.add` (lines 102–124).  A selector shorter than two
segments raises `ValueError`; otherwise the value is bound as a variable
and stored.  In the source the three `isinstance` branches read
`if Variable / if Segment / else`: since every `Variable` is a `Segment`,
the first branch's assignment is immediately overwritten by the second,
so a variable too flows through `segment_to_variable` (which returns it
unchanged). -/
def VariablePool.add (pool : VariablePool) (selector : List String) (value : PoolValue) :
    Except String VariablePool :=
  if selector.length < 2 then Except.error "无效的选择器"
  else
    let var :=
      match value with
      | PoolValue.var v => segment_to_variable v selector
      | PoolValue.seg s => segment_to_variable s selector
      | PoolValue.raw r => segment_to_variable (build_segment r) selector
    Except.ok ⟨dictInsert (selector.headD "") selector.tail var pool.variable_dictionary⟩

/-- Worker for `VariablePool.get`.  The fuel argument only bounds the
depth of the attribute-fallback recursion, which drops the selector's
last element each round; `get` supplies the selector's length, which
always suffices.  Matches lines 126–154: a selector shorter than two
segments returns `None`; a direct hit is returned as is; on a miss, if
the last segment names a recognized file attribute and the selector
without it resolves to a file segment the attribute is computed lazily,
if it resolves to a none segment that segment itself is returned, and
every other shape yields `None`. -/
def VariablePool.getAux (pool : VariablePool) : Nat → List String → Option Segment
  | _, [] => Option.none
  | _, [_] => Option.none
  | fuel + 1, scope :: key1 :: keyRest =>
    match pool.variable_dictionary scope (key1 :: keyRest) with
    | some value => some value
    | Option.none =>
      let attr := (scope :: key1 :: keyRest).getLastD ""
      if attr ∈ fileAttributeValues then
        match pool.getAux fuel ((scope :: key1 :: keyRest).dropLast) with
        | some value =>
          match value.value with
          | SegValue.file f => some (build_segment (file_get_attr f attr))
          | SegValue.none => some value
          | _ => Option.none
        | Option.none => Option.none
      else Option.none
  | 0, _ :: _ :: _ => Option.none

/-- `VariablePool.get` (lines 126–154). -/
def VariablePool.get (pool : VariablePool) (selector : List String) : Option Segment :=
  pool.getAux selector.length selector

/-- `VariablePool.remove` (lines 156–168): no-op on an empty selector; a
single-segment selector resets the whole scope to an empty dictionary;
otherwise the one addressed entry is popped. -/
def VariablePool.remove (pool : VariablePool) (selector : List String) : VariablePool :=
  match selector with
  | [] => pool
  | [scope] => ⟨fun s k => if s = scope then Option.none else pool.variable_dictionary s k⟩
  | scope :: _ :: _ =>
    ⟨dictPop scope selector.tail pool.variable_dictionary⟩

/-- The loop body of `convert_template` (lines 179–183): a piece that
contains a dot and whose dot-split form resolves in the pool is replaced
by the resolved segment — whether it came from a placeholder capture or
from literal text — and every other piece becomes a string segment.
(The resolved segment is a pydantic model and hence always truthy, so
the walrus condition reduces to the lookup succeeding.) -/
def VariablePool.processPart (pool : VariablePool) (part : String) : Segment :=
  if hasDot part then
    match pool.get (pySplitDot part) with
    | some v => v
    | Option.none => build_segment (RawValue.str part)
  else build_segment (RawValue.str part)

/-- `VariablePool.convert_template` (lines 170–184): split on
`VARIABLE_PATTERN`, drop empty pieces (Python's truthiness `filter`),
convert each remaining piece, and collect the results into a group. -/
def VariablePool.convert_template (pool : VariablePool) (template : String) : SegmentGroup :=
  ⟨((variablePatternSplit template.data).filter (fun x => x ≠ "")).map pool.processPart⟩

/-- `VariablePool.get_file` (lines 186–196): `get`, filtered to
file-typed segments. -/
def VariablePool.get_file (pool : VariablePool) (selector : List String) : Option Segment :=
  match pool.get selector with
  | some segment =>
    match segment.value with
    | SegValue.file _ => some segment
    | _ => Option.none
  | Option.none => Option.none

/-! ## Node execution results

Embedding of `api/core/workflow/entities/node_entities.py`.  The status
enumeration lives in `models.workflow`, outside this tree, and is
modelled from the spec; Python's `Any` payloads are modelled as raw
values. -/

/-- Modelled from the spec: the node execution status set
{running, succeeded, failed, stopped, exception}
(`models.workflow.WorkflowNodeExecutionStatus` is not in the tree). -/
inductive WorkflowNodeExecutionStatus where
  | running
  | succeeded
  | failed
  | stopped
  | exception
deriving DecidableEq

/-- `NodeRunMetadataKey` (node_entities.py lines 11–55): the closed
enumeration of well-known metadata keys. -/
inductive NodeRunMetadataKey where
  | total_tokens
  | total_price
  | currency
  | tool_info
  | agent_log
  | iteration_id
  | iteration_index
  | loop_id
  | loop_index
  | parallel_id
  | parallel_start_node_id
  | parent_parallel_id
  | parent_parallel_start_node_id
  | parallel_mode_run_id
  | iteration_duration_map
  | loop_duration_map
  | error_strategy
  | loop_variable_map
deriving DecidableEq

/-- Modelled from the spec: optional model-usage accounting
(`core.model_runtime...LLMUsage` is not in the tree); only a token total
is carried. -/
structure LLMUsage where
  total_tokens : Int := 0

/-- `NodeRunResult` (node_entities.py lines 58–91): the outcome record of
one node execution. -/
structure NodeRunResult where
  status : WorkflowNodeExecutionStatus := WorkflowNodeExecutionStatus.running
  inputs : Option (List (String × RawValue)) := Option.none
  process_data : Option (List (String × RawValue)) := Option.none
  outputs : Option (List (String × RawValue)) := Option.none
  metadata : Option (List (NodeRunMetadataKey × RawValue)) := Option.none
  llm_usage : Option LLMUsage := Option.none
  edge_source_handle : Option String := Option.none
  error : Option String := Option.none
  error_type : Option String := Option.none
  retry_index : Int := 0

/-! ## The workflow run state

Embedding of `api/core/workflow/entities/workflow_entities.py`.  The
types it imports from outside this tree (`BaseNode`,
`BaseIterationState`, `BaseLoopState`, `Workflow`, `WorkflowType`,
`InvokeFrom`) are modelled from the spec; `UserFrom` is embedded from
`api/models/enums.py`, which is in the tree. -/

/-- Modelled from the spec: a node of the workflow graph
(`core.workflow.nodes.base.BaseNode` is not in the tree); only its
identity is carried. -/
structure BaseNode where
  node_id : String

/-- Modelled from the spec: the transient bookkeeping of the active
iteration frame (`BaseIterationState` is not in the tree). -/
structure BaseIterationState where
  iteration_node_id : String

/-- Modelled from the spec: the transient bookkeeping of the active loop
frame (`BaseLoopState` is not in the tree). -/
structure BaseLoopState where
  loop_node_id : String

/-- `UserFrom` (api/models/enums.py): the origin of the invoking user. -/
inductive UserFrom where
  | account
  | end_user
deriving DecidableEq

/-- Modelled from the spec: the invocation channel
(`core.app.entities.app_invoke_entities.InvokeFrom` is not in the tree);
carried as its string value. -/
structure InvokeFrom where
  value : String

/-- Modelled from the spec: the workflow type sentinel
(`models.workflow.WorkflowType` is not in the tree); carried as its
string value. -/
structure WorkflowType where
  value : String

/-- Modelled from the spec: `WorkflowType.value_of`, resolving a stored
type string to the sentinel. -/
def WorkflowType.value_of (s : String) : WorkflowType := ⟨s⟩

/-- Modelled from the spec: the workflow metadata record handed to the
run state (`models.workflow.Workflow` is not in the tree); only the
identity fields the constructor copies are carried.  The stored type
string is named `wtype` (`type` in Python). -/
structure Workflow where
  id : String
  tenant_id : String
  app_id : String
  wtype : String

/-- `WorkflowNodeAndResult` (workflow_entities.py lines 14–36): a node
paired with its (optional) run result. -/
structure WorkflowNodeAndResult where
  node : BaseNode
  result : Option NodeRunResult := Option.none

/-- `WorkflowRunState.NodeRun` (workflow_entities.py lines 81–95): the
compact per-run descriptor appended to the node-run ledger. -/
structure NodeRun where
  node_id : String
  iteration_node_id : String
  loop_node_id : String

/-- `WorkflowRunState` (workflow_entities.py lines 39–141).  Python
attributes come into existence only when assigned; the
`workflow_nodes_and_results` slot is therefore embedded as an `Option`al
list, `Option.none` meaning the attribute is absent (reading it raises
`AttributeError`).  The class body's bare annotation on line 79 assigns
nothing, and `__init__` never touches the slot.  `start_at` is a wall
-clock timestamp that is only stored, never computed with; it is carried
as an integer. -/
structure WorkflowRunState where
  tenant_id : String
  app_id : String
  workflow_id : String
  workflow_type : WorkflowType
  user_id : String
  user_from : UserFrom
  invoke_from : InvokeFrom
  workflow_call_depth : Int
  start_at : Int
  variable_pool : VariablePool
  total_tokens : Int
  workflow_nodes_and_results : Option (List WorkflowNodeAndResult)
  workflow_node_runs : List NodeRun
  workflow_node_steps : Int
  current_iteration_state : Option BaseIterationState
  current_loop_state : Option BaseLoopState

/-- `WorkflowRunState.__init__` (lines 103–141): copies the identity
fields out of the workflow metadata, stores the pool, and initializes
the counters, ledger and frames.  It assigns every declared attribute
except `workflow_nodes_and_results`, which stays absent. -/
def WorkflowRunState.init (workflow : Workflow) (start_at : Int)
    (variable_pool : VariablePool) (user_id : String) (user_from : UserFrom)
    (invoke_from : InvokeFrom) (workflow_call_depth : Int) : WorkflowRunState :=
  { workflow_id := workflow.id
    tenant_id := workflow.tenant_id
    app_id := workflow.app_id
    workflow_type := WorkflowType.value_of workflow.wtype
    user_id := user_id
    user_from := user_from
    invoke_from := invoke_from
    workflow_call_depth := workflow_call_depth
    start_at := start_at
    variable_pool := variable_pool
    total_tokens := 0
    workflow_node_steps := 1
    workflow_node_runs := []
    current_iteration_state := Option.none
    current_loop_state := Option.none
    workflow_nodes_and_results := Option.none }

/-! ## Pool lemmas -/

/-- Binding a segment to a selector never changes its value payload. -/
theorem segment_to_variable_value (seg : Segment) (selector : List String) :
    (segment_to_variable seg selector).value = seg.value := by
  cases h : seg.name <;> simp [segment_to_variable, h]

/-- `get` on a selector shorter than two segments is absent. -/
theorem VariablePool.get_nil (pool : VariablePool) : pool.get [] = Option.none := rfl

/-- `get` on a one-segment selector is absent. -/
theorem VariablePool.get_single (pool : VariablePool) (x : String) :
    pool.get [x] = Option.none := rfl

/-- The direct dictionary lookup of a two-or-more-segment selector. -/
theorem VariablePool.entryAt_cons (pool : VariablePool) (a b : String) (t : List String) :
    pool.entryAt (a :: b :: t) = pool.variable_dictionary a (b :: t) := rfl

/-- One unfolding of `get` on a selector of length at least two: the
direct lookup, then the attribute fallback on the selector without its
last segment. -/
theorem VariablePool.get_cons (pool : VariablePool) (a b : String) (t : List String) :
    pool.get (a :: b :: t) =
      match pool.variable_dictionary a (b :: t) with
      | some value => some value
      | Option.none =>
        if (a :: b :: t).getLastD "" ∈ fileAttributeValues then
          match pool.get ((a :: b :: t).dropLast) with
          | some value =>
            match value.value with
            | SegValue.file f =>
              some (build_segment (file_get_attr f ((a :: b :: t).getLastD "")))
            | SegValue.none => some value
            | _ => Option.none
          | Option.none => Option.none
        else Option.none := by
  have hlen : ((a :: b :: t).dropLast).length = t.length + 1 := by
    simp [List.length_dropLast]
  show pool.getAux (t.length + 1 + 1) (a :: b :: t) = _
  rw [show pool.get ((a :: b :: t).dropLast) =
        pool.getAux ((a :: b :: t).dropLast).length ((a :: b :: t).dropLast) from rfl, hlen]
  rfl

/-- A direct hit is returned as is. -/
theorem VariablePool.get_of_entry (pool : VariablePool) (a b : String) (t : List String)
    (v : Segment) (h : pool.variable_dictionary a (b :: t) = some v) :
    pool.get (a :: b :: t) = some v := by
  rw [VariablePool.get_cons, h]

/-- `get` only answers selectors of length at least two. -/
theorem VariablePool.get_some_length (pool : VariablePool) (s : List String) (v : Segment)
    (h : pool.get s = some v) : 2 ≤ s.length := by
  match s with
  | [] => exact absurd h (by simp [VariablePool.get_nil])
  | [x] => exact absurd h (by simp [VariablePool.get_single])
  | a :: b :: t => simp [List.length_cons]

/-- If a selector's scope holds no entries, `get` is absent: the direct
lookup misses, and the attribute fallback only ever re-enters the same
scope. -/
theorem VariablePool.getAux_scope_empty (pool : VariablePool) :
    ∀ (fuel : Nat) (s : List String),
      (∀ k, pool.variable_dictionary (s.headD "") k = Option.none) →
      pool.getAux fuel s = Option.none := by
  intro fuel
  induction fuel with
  | zero =>
    intro s h
    match s with
    | [] => rfl
    | [x] => rfl
    | a :: b :: t => rfl
  | succ n ih =>
    intro s h
    match s with
    | [] => rfl
    | [x] => rfl
    | a :: b :: t =>
      have hd : (a :: b :: t).headD "" = a := rfl
      rw [hd] at h
      simp only [VariablePool.getAux, h (b :: t)]
      split
      · rw [ih ((a :: b :: t).dropLast) (by
          have : ((a :: b :: t).dropLast).headD "" = a := by
            cases t using List.reverseRecOn with
            | nil => rfl
            | append_singleton t' x =>
              simp [List.dropLast_cons₂]
          rw [this]; exact h)]
      · rfl

/-- `get` is absent on every selector of an empty scope. -/
theorem VariablePool.get_scope_empty (pool : VariablePool) (s : List String)
    (h : ∀ k, pool.variable_dictionary (s.headD "") k = Option.none) :
    pool.get s = Option.none :=
  pool.getAux_scope_empty s.length s h

/-- The last element (with default) of a list ending in a known element. -/
theorem getLastD_append_single {α : Type} (l : List α) (x d : α) :
    (l ++ [x]).getLastD d = x := by
  induction l generalizing d with
  | nil => rfl
  | cons a as ih =>
    rw [List.cons_append, List.getLastD_cons]
    exact ih a

/-- Dropping the last element undoes appending it. -/
theorem dropLast_append_single {α : Type} (l : List α) (x : α) :
    (l ++ [x]).dropLast = l := by
  induction l with
  | nil => rfl
  | cons a as ih =>
    cases as with
    | nil => rfl
    | cons b bs =>
      show a :: ((b :: bs) ++ [x]).dropLast = _
      rw [ih]

/-- The normalized form of a value passed to `add`, as the spec words it:
the segment the normalizing factory produces from the value — a variable
and a segment are already segments, a raw value is normalized by the
factory. -/
def normalizedOf : PoolValue → Segment
  | PoolValue.var v => v
  | PoolValue.seg s => s
  | PoolValue.raw r => build_segment r

/-- What `add` stores for a long-enough selector: the normalized value,
bound to the selector. -/
theorem VariablePool.add_ok (pool : VariablePool) (a b : String) (t : List String)
    (v : PoolValue) :
    pool.add (a :: b :: t) v =
      Except.ok
        ⟨dictInsert a (b :: t) (segment_to_variable (normalizedOf v) (a :: b :: t))
          pool.variable_dictionary⟩ := by
  have hlt : ¬ ((a :: b :: t).length < 2) := by simp
  cases v <;> (unfold VariablePool.add; rw [if_neg hlt]) <;> rfl

/-- Convenience for concrete instances: `add`, keeping the pool unchanged
on the error branch. -/
def add1 (pool : VariablePool) (selector : List String) (value : PoolValue) : VariablePool :=
  match pool.add selector value with
  | Except.ok p => p
  | Except.error _ => pool

/-! ## The claims -/

/-- Claim C1: for every selector `s` with `len(s) >= 2` and every value
`v`, `get(s)` right after `add(s, v)` succeeds and returns a segment
whose type and content equal the normalized form of `v` — for raw
values, segments and variables alike. -/
theorem c1_get_after_add (pool : VariablePool) (s : List String) (v : PoolValue)
    (h : 2 ≤ s.length) :
    ∃ p' seg, pool.add s v = Except.ok p' ∧ p'.get s = some seg ∧
      seg.value = (normalizedOf v).value := by
  cases s with
  | nil => exact absurd h (by simp)
  | cons a s1 =>
    cases s1 with
    | nil => exact absurd h (by simp)
    | cons b t =>
      refine ⟨_, segment_to_variable (normalizedOf v) (a :: b :: t),
        pool.add_ok a b t v, ?_, segment_to_variable_value _ _⟩
      apply VariablePool.get_of_entry
      simp [dictInsert]

/-- Witness for C1 at a concrete input. -/
theorem c1_witness :
    ∃ p' seg,
      emptyPool.add ["a", "b"] (PoolValue.raw (RawValue.int 1)) = Except.ok p' ∧
      p'.get ["a", "b"] = some seg ∧
      seg.value = (normalizedOf (PoolValue.raw (RawValue.int 1))).value :=
  c1_get_after_add emptyPool ["a", "b"] (PoolValue.raw (RawValue.int 1)) (by decide)

/-- Claim C3 (the parts the code implements): a fresh run state has step
counter 1, zero cumulative tokens, an empty node-run ledger and absent
iteration and loop frames — but its node-result history attribute is
never assigned by `__init__`, so it is absent rather than an empty
list. -/
theorem c3_fresh_state (w : Workflow) (t0 : Int) (vp : VariablePool) (uid : String)
    (uf : UserFrom) (iv : InvokeFrom) (d : Int) :
    (WorkflowRunState.init w t0 vp uid uf iv d).workflow_node_steps = 1 ∧
    (WorkflowRunState.init w t0 vp uid uf iv d).total_tokens = 0 ∧
    (WorkflowRunState.init w t0 vp uid uf iv d).workflow_node_runs = [] ∧
    (WorkflowRunState.init w t0 vp uid uf iv d).current_iteration_state = Option.none ∧
    (WorkflowRunState.init w t0 vp uid uf iv d).current_loop_state = Option.none ∧
    (WorkflowRunState.init w t0 vp uid uf iv d).workflow_nodes_and_results = Option.none :=
  ⟨rfl, rfl, rfl, rfl, rfl, rfl⟩

/-- Claim C6: `add` on a selector shorter than two segments raises the
invalid-selector error for every value, while `get` returns absent
without raising. -/
theorem c6_short_selector (pool : VariablePool) (s : List String) (v : PoolValue)
    (h : s.length < 2) :
    pool.add s v = Except.error "无效的选择器" ∧ pool.get s = Option.none := by
  constructor
  · unfold VariablePool.add
    rw [if_pos h]
  · cases s with
    | nil => rfl
    | cons a s1 =>
      cases s1 with
      | nil => rfl
      | cons b t => exact absurd h (by simp)

/-- Witness for C6 at a concrete input. -/
theorem c6_witness :
    emptyPool.add ["x"] (PoolValue.raw RawValue.none) = Except.error "无效的选择器" ∧
    emptyPool.get ["x"] = Option.none :=
  c6_short_selector emptyPool ["x"] (PoolValue.raw RawValue.none) (by decide)

/-- Claim C7, amended: if a selector's scope holds no entry at all — in
particular on a fresh pool, or for a scope never used — then `get`
returns absent (and, being total, never raises).  The original claim
fails because a never-inserted selector can still resolve through the
file-attribute fallback; see the counterexample. -/
theorem c7_scope_never_used (pool : VariablePool) (s : List String)
    (h : ∀ k, pool.variable_dictionary (s.headD "") k = Option.none) :
    pool.get s = Option.none :=
  pool.get_scope_empty s h

/-- Witness for C7 at a concrete input. -/
theorem c7_witness : emptyPool.get ["never", "used"] = Option.none :=
  c7_scope_never_used emptyPool ["never", "used"] (fun _ => rfl)

/-- A pool holding only a file variable at `["n", "f"]`. -/
def c7pool : VariablePool :=
  add1 emptyPool ["n", "f"] (PoolValue.raw (RawValue.file ⟨"a.png", "png", 3⟩))

/-- Counterexample to C7 as stated: the selector
`["n", "f", "extension"]` was never inserted into `c7pool` (only
`["n", "f"]` was), yet `get` returns a segment — the lazily computed
file attribute — rather than absent. -/
theorem c7_counterexample :
    c7pool.entryAt ["n", "f", "extension"] = Option.none ∧
    c7pool.get ["n", "f", "extension"] = some (build_segment (RawValue.str "png")) ∧
    c7pool.get ["n", "f", "extension"] ≠ Option.none := by
  refine ⟨rfl, rfl, ?_⟩
  intro hc
  have h1 : c7pool.get ["n", "f", "extension"] = some (build_segment (RawValue.str "png")) := rfl
  rw [h1] at hc
  exact Option.noConfusion hc

/-- Claim C8: `remove` is a no-op on the empty selector; a one-segment
selector clears the whole scope, so every subsequent `get` under that
scope is absent; a selector of length at least two removes exactly the
one addressed entry, leaves every other entry unchanged, and is
(observably) a no-op when the entry is absent. -/
theorem c8_remove (pool : VariablePool) :
    pool.remove [] = pool
    ∧ (∀ scope t, (pool.remove [scope]).get (scope :: t) = Option.none)
    ∧ ∀ a b t,
        (pool.remove (a :: b :: t)).variable_dictionary a (b :: t) = Option.none
        ∧ (∀ c k, c ≠ a ∨ k ≠ b :: t →
            (pool.remove (a :: b :: t)).variable_dictionary c k
              = pool.variable_dictionary c k)
        ∧ (pool.variable_dictionary a (b :: t) = Option.none →
            ∀ c k, (pool.remove (a :: b :: t)).variable_dictionary c k
              = pool.variable_dictionary c k) := by
  refine ⟨rfl, ?_, ?_⟩
  · intro scope t
    apply VariablePool.get_scope_empty
    intro k
    show (if scope = scope then Option.none else pool.variable_dictionary scope k) = Option.none
    rw [if_pos rfl]
  · intro a b t
    refine ⟨by simp [VariablePool.remove, dictPop], ?_, ?_⟩
    · intro c k hor
      by_cases h1 : c = a
      · have h2 : k ≠ b :: t := hor.resolve_left (not_not_intro h1)
        simp [VariablePool.remove, dictPop, h1, h2]
      · simp [VariablePool.remove, dictPop, h1]
    · intro hab c k
      by_cases h1 : c = a
      · by_cases h2 : k = b :: t
        · rw [h1, h2, hab]
          simp [VariablePool.remove, dictPop]
        · simp [VariablePool.remove, dictPop, h1, h2]
      · simp [VariablePool.remove, dictPop, h1]

/-- Witness for C8 at concrete inputs. -/
theorem c8_witness :
    ((add1 emptyPool ["a", "b"] (PoolValue.raw (RawValue.int 7))).remove ["a"]).get ["a", "b"]
      = Option.none ∧
    ((add1 emptyPool ["a", "b"] (PoolValue.raw (RawValue.int 7))).remove ["a", "b"]).variable_dictionary
      "a" ["b"] = Option.none :=
  ⟨(c8_remove _).2.1 "a" ["b"], ((c8_remove _).2.2 "a" "b" []).1⟩

/-- Claim C10: during attribute fallback, when the selector without its
trailing recognized-attribute segment resolves to a none-typed segment,
`get` returns that none segment itself — no attribute is computed and
the result is not absent. -/
theorem c10_none_fallback (pool : VariablePool) (sel : List String) (attr : String)
    (v : Segment) (hattr : attr ∈ fileAttributeValues)
    (hmiss : pool.entryAt (sel ++ [attr]) = Option.none)
    (hbase : pool.get sel = some v) (hnone : v.value = SegValue.none) :
    pool.get (sel ++ [attr]) = some v := by
  have hlen := pool.get_some_length sel v hbase
  cases sel with
  | nil => exact absurd hlen (by simp)
  | cons a s1 =>
    cases s1 with
    | nil => exact absurd hlen (by simp)
    | cons b t =>
      rw [show (a :: b :: t) ++ [attr] = a :: b :: (t ++ [attr]) from rfl] at hmiss ⊢
      rw [VariablePool.get_cons]
      rw [VariablePool.entryAt_cons] at hmiss
      rw [hmiss]
      have hlast : (a :: b :: (t ++ [attr])).getLastD "" = attr :=
        getLastD_append_single (a :: b :: t) attr ""
      have hdrop : (a :: b :: (t ++ [attr])).dropLast = a :: b :: t :=
        dropLast_append_single (a :: b :: t) attr
      show (if (a :: b :: (t ++ [attr])).getLastD "" ∈ fileAttributeValues then
          match pool.get ((a :: b :: (t ++ [attr])).dropLast) with
          | some value =>
            match value.value with
            | SegValue.file f =>
              some (build_segment (file_get_attr f ((a :: b :: (t ++ [attr])).getLastD "")))
            | SegValue.none => some value
            | _ => Option.none
          | Option.none => Option.none
        else Option.none) = some v
      rw [hlast, hdrop, if_pos hattr, hbase]
      show (match v.value with
        | SegValue.file f => some (build_segment (file_get_attr f attr))
        | SegValue.none => some v
        | _ => Option.none) = some v
      rw [hnone]

/-- A pool holding only a none-typed variable at `["n", "v"]`. -/
def c10pool : VariablePool := add1 emptyPool ["n", "v"] (PoolValue.raw RawValue.none)

/-- Witness for C10 at a concrete input. -/
theorem c10_witness :
    c10pool.get ["n", "v", "size"]
      = some (segment_to_variable (build_segment RawValue.none) ["n", "v"]) :=
  c10_none_fallback c10pool ["n", "v"] "size" _ (by decide) rfl rfl rfl

/-- Claim C4: when the direct entry at `["node1", "file"]` is a
file-typed variable, `get(["node1", "file", "extension"])` returns
exactly the segment built from computing the extension attribute of the
stored file; and for every trailing segment outside the recognized
attribute set the fallback yields absent. -/
theorem c4_file_attribute (pool : VariablePool) (f : File) (seg : Segment)
    (hstore : pool.entryAt ["node1", "file"] = some seg)
    (hfile : seg.value = SegValue.file f)
    (hnod : pool.entryAt ["node1", "file", "extension"] = Option.none) :
    pool.get ["node1", "file", "extension"]
      = some (build_segment (file_get_attr f "extension"))
    ∧ ∀ attr, attr ∉ fileAttributeValues →
        pool.entryAt ["node1", "file", attr] = Option.none →
        pool.get ["node1", "file", attr] = Option.none := by
  constructor
  · rw [VariablePool.get_cons]
    rw [VariablePool.entryAt_cons] at hnod
    rw [hnod]
    have hhit : pool.get ["node1", "file"] = some seg :=
      pool.get_of_entry "node1" "file" [] seg hstore
    show (if (["node1", "file", "extension"] : List String).getLastD "" ∈ fileAttributeValues then
        match pool.get ((["node1", "file", "extension"] : List String).dropLast) with
        | some value =>
          match value.value with
          | SegValue.file f =>
            some (build_segment
              (file_get_attr f ((["node1", "file", "extension"] : List String).getLastD "")))
          | SegValue.none => some value
          | _ => Option.none
        | Option.none => Option.none
      else Option.none) = some (build_segment (file_get_attr f "extension"))
    rw [if_pos (by decide)]
    rw [show (["node1", "file", "extension"] : List String).dropLast = ["node1", "file"] from rfl]
    rw [hhit]
    show (match seg.value with
      | SegValue.file f =>
        some (build_segment
          (file_get_attr f ((["node1", "file", "extension"] : List String).getLastD "")))
      | SegValue.none => some seg
      | _ => Option.none) = some (build_segment (file_get_attr f "extension"))
    rw [hfile]
    rfl
  · intro attr hattr hdir
    rw [VariablePool.get_cons]
    rw [VariablePool.entryAt_cons] at hdir
    rw [hdir]
    have hlast : (["node1", "file", attr] : List String).getLastD "" = attr := rfl
    rw [hlast, if_neg hattr]

/-! ## The shape of the placeholder pattern

Support for claim C5: a description, at the level of dot-separated
segments, of exactly which paths the automaton accepts. -/

/-- `idChar` rejects the dot. -/
theorem idChar_ne_dot {c : Char} (h : idChar c = true) : c ≠ '.' := by
  intro hc
  subst hc
  exact absurd h (by decide)

/-- `startChar` rejects the dot. -/
theorem startChar_ne_dot {c : Char} (h : startChar c = true) : c ≠ '.' := by
  intro hc
  subst hc
  exact absurd h (by decide)

/-- Every segment-opening character is an identifier character. -/
theorem startChar_idChar {c : Char} (h : startChar c = true) : idChar c = true := by
  simp only [startChar, Bool.or_eq_true] at h
  simp only [idChar, Bool.or_eq_true]
  rcases h with h | h
  · exact Or.inl (Or.inl h)
  · exact Or.inr h

/-- Characterize `splitDotAux`: the pending chunk is spliced onto the
first chunk of the remaining split. -/
theorem splitDotAux_eq (cur cs : List Char) :
    splitDotAux cur cs
      = (cur.reverse ++ (splitDotChar cs).headD []) :: (splitDotChar cs).tail := by
  induction cs generalizing cur with
  | nil => simp [splitDotAux, splitDotChar]
  | cons c rest ih =>
    by_cases hc : c = '.'
    · subst hc
      show splitDotAux cur ('.' :: rest) = _
      simp only [splitDotAux, if_pos rfl, splitDotChar]
      rw [ih []]
      simp
    · simp only [splitDotAux, if_neg hc, splitDotChar]
      rw [ih (c :: cur), ih [c]]
      simp

/-- Splitting an empty string. -/
theorem splitDotChar_nil : splitDotChar [] = [[]] := rfl

/-- Splitting after a leading dot emits an empty chunk. -/
theorem splitDotChar_cons_dot (rest : List Char) :
    splitDotChar ('.' :: rest) = [] :: splitDotChar rest := by
  show splitDotAux [] ('.' :: rest) = _
  simp only [splitDotAux, if_pos rfl]
  rfl

/-- Splitting after a non-dot character extends the first chunk. -/
theorem splitDotChar_cons_ne (c : Char) (rest : List Char) (h : c ≠ '.') :
    splitDotChar (c :: rest)
      = (c :: (splitDotChar rest).headD []) :: (splitDotChar rest).tail := by
  show splitDotAux [] (c :: rest) = _
  simp only [splitDotAux, if_neg h]
  rw [splitDotAux_eq [c]]
  rfl

/-- A well-formed first path segment: 1–50 identifier characters
(`[a-zA-Z0-9_]{1,50}`). -/
def goodFirstSeg (s : List Char) : Prop :=
  1 ≤ s.length ∧ s.length ≤ 50 ∧ ∀ c ∈ s, idChar c = true

/-- A well-formed later path segment: 1–30 identifier characters, the
first a letter or underscore (`[a-zA-Z_][a-zA-Z0-9_]{0,29}`). -/
def goodTailSeg (s : List Char) : Prop :=
  1 ≤ s.length ∧ s.length ≤ 30 ∧ startChar (s.headD ' ') = true ∧ ∀ c ∈ s, idChar c = true

/-- The shape of a captured path, read off its dot-split: a well-formed
first segment followed by one to ten well-formed later segments — that
is, two to eleven dot-separated segments in total. -/
def PathShape (p : List Char) : Prop :=
  goodFirstSeg ((splitDotChar p).headD [])
  ∧ 1 ≤ (splitDotChar p).tail.length
  ∧ (splitDotChar p).tail.length ≤ 10
  ∧ ∀ s ∈ (splitDotChar p).tail, goodTailSeg s

/-- Reachability bounds carried by each automaton state. -/
def StOk : PathState → Prop
  | PathState.seg1 n => n ≤ 50
  | PathState.gstart k => 1 ≤ k ∧ k ≤ 10
  | PathState.gbody k n => 1 ≤ k ∧ k ≤ 10 ∧ n ≤ 30
  | PathState.end1 => True
  | PathState.end2 => True

/-- What the capture still to come looks like from each state. -/
def StateInv : PathState → List Char → Prop
  | PathState.seg1 n, p =>
    ∃ s0 rest, splitDotChar p = s0 :: rest
      ∧ (∀ c ∈ s0, idChar c = true)
      ∧ 1 ≤ n + s0.length ∧ n + s0.length ≤ 50
      ∧ 1 ≤ rest.length ∧ rest.length ≤ 10
      ∧ ∀ s ∈ rest, goodTailSeg s
  | PathState.gstart k, p =>
    ∃ g rest, splitDotChar p = g :: rest
      ∧ goodTailSeg g
      ∧ k + rest.length ≤ 10
      ∧ ∀ s ∈ rest, goodTailSeg s
  | PathState.gbody k n, p =>
    ∃ g rest, splitDotChar p = g :: rest
      ∧ (∀ c ∈ g, idChar c = true)
      ∧ n + g.length ≤ 30
      ∧ k + rest.length ≤ 10
      ∧ ∀ s ∈ rest, goodTailSeg s
  | PathState.end1, p => p = []
  | PathState.end2, p => p = []

/-- Unpack a successful `pushChar`. -/
theorem pushChar_eq_some {c : Char} {o : Option (List Char × List Char)} {p r : List Char}
    (h : pushChar c o = some (p, r)) :
    ∃ p', o = some (p', r) ∧ p = c :: p' := by
  cases o with
  | none => exact Option.noConfusion h
  | some pr =>
    obtain ⟨p', r'⟩ := pr
    simp only [pushChar, Option.some.injEq, Prod.mk.injEq] at h
    exact ⟨p', by rw [h.2], h.1.symm⟩

/-- Soundness of the placeholder automaton: a successful run from a
reachable state captures a path of the invariant shape for that state. -/
theorem runPath_sound : ∀ (cs : List Char) (st : PathState) (p r : List Char),
    StOk st → runPath st cs = some (p, r) → StateInv st p := by
  intro cs
  induction cs with
  | nil =>
    intro st p r _ h
    cases st <;> exact Option.noConfusion h
  | cons c rest ih =>
    intro st p r hok h
    cases st with
    | seg1 n =>
      have hn50 : n ≤ 50 := hok
      simp only [runPath] at h
      by_cases h1 : idChar c = true ∧ n < 50
      · rw [if_pos h1] at h
        obtain ⟨p', hrun, rfl⟩ := pushChar_eq_some h
        have inv := ih (PathState.seg1 (n + 1)) p' r (by exact h1.2) hrun
        obtain ⟨s0, rest', hsp, hid, hlo, hhi, hr1, hr10, hgood⟩ := inv
        refine ⟨c :: s0, rest', ?_, ?_, ?_, ?_, hr1, hr10, hgood⟩
        · rw [splitDotChar_cons_ne c p' (idChar_ne_dot h1.1), hsp]
          rfl
        · intro c' hc'
          rcases List.mem_cons.mp hc' with rfl | hmem
          · exact h1.1
          · exact hid c' hmem
        · simp only [List.length_cons]
          omega
        · simp only [List.length_cons]
          omega
      · rw [if_neg h1] at h
        by_cases h2 : c = '.' ∧ 1 ≤ n
        · rw [if_pos h2] at h
          obtain ⟨p', hrun, rfl⟩ := pushChar_eq_some h
          obtain ⟨hcdot, hn1⟩ := h2
          subst hcdot
          have inv := ih (PathState.gstart 1) p' r ⟨le_refl 1, by omega⟩ hrun
          obtain ⟨g, rest', hsp, hgood_g, hk10, hgoods⟩ := inv
          refine ⟨[], g :: rest', ?_, by simp, by simp only [List.length_nil]; omega,
            by simp only [List.length_nil]; omega, by simp, ?_, ?_⟩
          · rw [splitDotChar_cons_dot, hsp]
          · simp only [List.length_cons]
            omega
          · intro s hs
            rcases List.mem_cons.mp hs with rfl | hmem
            · exact hgood_g
            · exact hgoods s hmem
        · rw [if_neg h2] at h
          exact Option.noConfusion h
    | gstart k =>
      have hk1 : 1 ≤ k := hok.1
      have hkA : k ≤ 10 := hok.2
      simp only [runPath] at h
      by_cases h1 : startChar c = true
      · rw [if_pos h1] at h
        obtain ⟨p', hrun, rfl⟩ := pushChar_eq_some h
        have inv := ih (PathState.gbody k 1) p' r ⟨hk1, hkA, by omega⟩ hrun
        obtain ⟨g, rest', hsp, hid, h30, hk10, hgoods⟩ := inv
        refine ⟨c :: g, rest', ?_, ?_, hk10, hgoods⟩
        · rw [splitDotChar_cons_ne c p' (startChar_ne_dot h1), hsp]
          rfl
        · refine ⟨by simp, ?_, by simpa using h1, ?_⟩
          · simp only [List.length_cons]
            omega
          · intro c' hc'
            rcases List.mem_cons.mp hc' with rfl | hmem
            · exact startChar_idChar h1
            · exact hid c' hmem
      · rw [if_neg h1] at h
        exact Option.noConfusion h
    | gbody k n =>
      have hk1 : 1 ≤ k := hok.1
      have hkA : k ≤ 10 := hok.2.1
      have hn30 : n ≤ 30 := hok.2.2
      simp only [runPath] at h
      by_cases h1 : idChar c = true ∧ n < 30
      · rw [if_pos h1] at h
        obtain ⟨p', hrun, rfl⟩ := pushChar_eq_some h
        have inv := ih (PathState.gbody k (n + 1)) p' r ⟨hk1, hkA, h1.2⟩ hrun
        obtain ⟨g, rest', hsp, hid, h30, hk10, hgoods⟩ := inv
        refine ⟨c :: g, rest', ?_, ?_, ?_, hk10, hgoods⟩
        · rw [splitDotChar_cons_ne c p' (idChar_ne_dot h1.1), hsp]
          rfl
        · intro c' hc'
          rcases List.mem_cons.mp hc' with rfl | hmem
          · exact h1.1
          · exact hid c' hmem
        · simp only [List.length_cons]
          omega
      · rw [if_neg h1] at h
        by_cases h2 : c = '.' ∧ k < 10
        · rw [if_pos h2] at h
          obtain ⟨p', hrun, rfl⟩ := pushChar_eq_some h
          obtain ⟨hcdot, hklt⟩ := h2
          subst hcdot
          have inv := ih (PathState.gstart (k + 1)) p' r ⟨by omega, by omega⟩ hrun
          obtain ⟨g, rest', hsp, hgood_g, hk10, hgoods⟩ := inv
          refine ⟨[], g :: rest', ?_, by simp, by simp only [List.length_nil]; omega, ?_, ?_⟩
          · rw [splitDotChar_cons_dot, hsp]
          · simp only [List.length_cons]
            omega
          · intro s hs
            rcases List.mem_cons.mp hs with rfl | hmem
            · exact hgood_g
            · exact hgoods s hmem
        · rw [if_neg h2] at h
          by_cases h3 : c = '#'
          · rw [if_pos h3] at h
            have inv := ih PathState.end1 p r trivial h
            subst inv
            exact ⟨[], [], splitDotChar_nil, by simp,
              by simp only [List.length_nil]; omega, by simp only [List.length_nil]; omega,
              by simp⟩
          · rw [if_neg h3] at h
            exact Option.noConfusion h
    | end1 =>
      simp only [runPath] at h
      by_cases h1 : c = charRB
      · rw [if_pos h1] at h
        exact ih PathState.end2 p r trivial h
      · rw [if_neg h1] at h
        exact Option.noConfusion h
    | end2 =>
      simp only [runPath] at h
      by_cases h1 : c = charRB
      · rw [if_pos h1] at h
        simp only [Option.some.injEq, Prod.mk.injEq] at h
        exact h.1.symm
      · rw [if_neg h1] at h
        exact Option.noConfusion h

/-- Every path captured by an anchored pattern match has the two-to-
eleven-segment shape. -/
theorem parsePlaceholder_shape (cs p r : List Char)
    (h : parsePlaceholder cs = some (p, r)) : PathShape p := by
  match cs with
  | [] => exact Option.noConfusion h
  | [_] => exact Option.noConfusion h
  | [_, _] => exact Option.noConfusion h
  | c1 :: c2 :: c3 :: rest =>
    simp only [parsePlaceholder] at h
    by_cases hb : c1 = charLB ∧ c2 = charLB ∧ c3 = '#'
    · rw [if_pos hb] at h
      have inv := runPath_sound rest (PathState.seg1 0) p r (by simp [StOk]) h
      obtain ⟨s0, rest', hsp, hid, hlo, hhi, hr1, hr10, hgood⟩ := inv
      unfold PathShape
      rw [hsp]
      simp only [List.headD_cons, List.tail_cons]
      exact ⟨⟨by omega, by omega, hid⟩, hr1, hr10, hgood⟩
    · rw [if_neg hb] at h
      exact Option.noConfusion h

/-- Every path the leftmost scan captures has the two-to-eleven-segment
shape. -/
theorem findPlaceholder_shape : ∀ (cs before p r : List Char),
    findPlaceholder cs = some (before, p, r) → PathShape p := by
  intro cs
  induction cs with
  | nil =>
    intro before p r h
    exact Option.noConfusion h
  | cons c cs1 ih =>
    intro before p r h
    simp only [findPlaceholder] at h
    cases hp : parsePlaceholder (c :: cs1) with
    | some pr =>
      obtain ⟨path, rest⟩ := pr
      rw [hp] at h
      simp only [Option.some.injEq, Prod.mk.injEq] at h
      rw [← h.2.1]
      exact parsePlaceholder_shape (c :: cs1) path rest hp
    | none =>
      rw [hp] at h
      cases hf : findPlaceholder cs1 with
      | some pr2 =>
        obtain ⟨b2, path2, rest2⟩ := pr2
        rw [hf] at h
        simp only [Option.some.injEq, Prod.mk.injEq] at h
        rw [← h.2.1]
        exact ih b2 path2 rest2 hf
      | none =>
        rw [hf] at h
        exact Option.noConfusion h

/-- A pool holding only a file variable at `["node1", "file"]`. -/
def c4pool : VariablePool :=
  add1 emptyPool ["node1", "file"] (PoolValue.raw (RawValue.file ⟨"a.png", "png", 3⟩))

/-- Witness for C4 at a concrete input. -/
theorem c4_witness :
    c4pool.get ["node1", "file", "extension"]
      = some (build_segment (file_get_attr ⟨"a.png", "png", 3⟩ "extension"))
    ∧ c4pool.get ["node1", "file", "color"] = Option.none := by
  have h := c4_file_attribute c4pool ⟨"a.png", "png", 3⟩
    (segment_to_variable (build_segment (RawValue.file ⟨"a.png", "png", 3⟩)) ["node1", "file"])
    rfl rfl rfl
  exact ⟨h.1, h.2 "color" (by decide) rfl⟩

/-- Claim C5, amended: every path the pattern captures consists of two to
eleven dot-separated segments — a first segment of 1–50 identifier
characters followed by one to ten segments of 1–30 characters opening
with a letter or underscore — and the split recognizes placeholders
across that whole range: two segments and eleven segments match, twelve
do not, a 50-character first segment matches, a 51-character one does
not, a 30-character later segment matches, a 31-character one does not.
A single-segment path is never captured (see the counterexample). -/
theorem c5_pattern_shape :
    (∀ cs before p r, findPlaceholder cs = some (before, p, r) → PathShape p)
    ∧ variablePatternSplit ("\x7b\x7b#env.name#\x7d\x7d").data = ["", "env.name", ""]
    ∧ variablePatternSplit ("\x7b\x7b#a.b.c.d.e.f.g.h.i.j.k#\x7d\x7d").data
      = ["", "a.b.c.d.e.f.g.h.i.j.k", ""]
    ∧ variablePatternSplit ("\x7b\x7b#a.b.c.d.e.f.g.h.i.j.k.l#\x7d\x7d").data
      = ["\x7b\x7b#a.b.c.d.e.f.g.h.i.j.k.l#\x7d\x7d"]
    ∧ variablePatternSplit ("\x7b\x7b#".data ++ List.replicate 50 'x' ++ ".b#\x7d\x7d".data)
      = ["", String.mk (List.replicate 50 'x' ++ ".b".data), ""]
    ∧ variablePatternSplit ("\x7b\x7b#".data ++ List.replicate 51 'x' ++ ".b#\x7d\x7d".data)
      = [String.mk ("\x7b\x7b#".data ++ List.replicate 51 'x' ++ ".b#\x7d\x7d".data)]
    ∧ variablePatternSplit ("\x7b\x7b#a.".data ++ List.replicate 30 'y' ++ "#\x7d\x7d".data)
      = ["", String.mk ("a.".data ++ List.replicate 30 'y'), ""]
    ∧ variablePatternSplit ("\x7b\x7b#a.".data ++ List.replicate 31 'y' ++ "#\x7d\x7d".data)
      = [String.mk ("\x7b\x7b#a.".data ++ List.replicate 31 'y' ++ "#\x7d\x7d".data)] :=
  ⟨fun cs before p r h => findPlaceholder_shape cs before p r h,
    by decide, by decide, by decide, by decide, by decide, by decide, by decide⟩

/-- Witness for C5 at a concrete input: the captured path of the first
placeholder of a concrete template has the two-to-eleven-segment shape. -/
theorem c5_witness : PathShape ("env.name".data) :=
  c5_pattern_shape.1 ("\x7b\x7b#env.name#\x7d\x7d").data [] ("env.name".data) []
    (by decide)

/-- Counterexample to C5 as stated: a single-segment path such as
`name` is not captured — the split leaves the would-be placeholder text
untouched, and the anchored match fails — while the claim asserts it is
recognized as a placeholder. -/
theorem c5_counterexample :
    variablePatternSplit ("\x7b\x7b#name#\x7d\x7d").data = ["\x7b\x7b#name#\x7d\x7d"]
    ∧ parsePlaceholder ("\x7b\x7b#name#\x7d\x7d").data = Option.none := by
  exact ⟨by decide, by decide⟩

/-- Claim C2, amended: a placeholder whose selector does not resolve
degrades to the literal text of its captured path — the delimiters are
dropped but the path text is kept — so the template renders to
`"Hello env.name!"`, not to `"Hello !"`. -/
theorem c2_unresolved_placeholder (pool : VariablePool)
    (h : pool.get ["env", "name"] = Option.none) :
    (pool.convert_template "Hello \x7b\x7b#env.name#\x7d\x7d!").text = "Hello env.name!" := by
  unfold VariablePool.convert_template
  rw [(by decide :
    variablePatternSplit ("Hello \x7b\x7b#env.name#\x7d\x7d!").data
      = ["Hello ", "env.name", "!"])]
  rw [(by decide :
    (["Hello ", "env.name", "!"] : List String).filter (fun x => x ≠ "")
      = ["Hello ", "env.name", "!"])]
  show SegmentGroup.text ⟨[pool.processPart "Hello ", pool.processPart "env.name",
    pool.processPart "!"]⟩ = "Hello env.name!"
  have h1 : pool.processPart "Hello " = build_segment (RawValue.str "Hello ") := by
    unfold VariablePool.processPart
    rw [if_neg (by decide)]
  have h2 : pool.processPart "env.name" = build_segment (RawValue.str "env.name") := by
    unfold VariablePool.processPart
    rw [if_pos (by decide : hasDot "env.name" = true)]
    rw [(by decide : pySplitDot "env.name" = ["env", "name"])]
    rw [h]
  have h3 : pool.processPart "!" = build_segment (RawValue.str "!") := by
    unfold VariablePool.processPart
    rw [if_neg (by decide)]
  rw [h1, h2, h3]
  rfl

/-- Witness for C2 at a concrete input. -/
theorem c2_witness :
    (emptyPool.convert_template "Hello \x7b\x7b#env.name#\x7d\x7d!").text
      = "Hello env.name!" :=
  c2_unresolved_placeholder emptyPool rfl

/-- Counterexample to C2 as stated: with the referenced selector
unresolved, the rendered output keeps the placeholder's path text
(`"Hello env.name!"`); it is not `"Hello !"` with the text dropped. -/
theorem c2_counterexample :
    (emptyPool.convert_template "Hello \x7b\x7b#env.name#\x7d\x7d!").text
      ≠ "Hello !" := by
  intro hc
  have h1 : (emptyPool.convert_template "Hello \x7b\x7b#env.name#\x7d\x7d!").text
      = "Hello env.name!" := rfl
  rw [h1] at hc
  exact absurd hc (by decide)

/-- Claim C9: `convert_template` also resolves dotted references outside
placeholder delimiters — a template that contains no placeholder at all
but contains a dot, and whose dot-split form resolves in the pool, is
converted to the resolved segment instead of a literal string segment. -/
theorem c9_literal_dotted_resolution (pool : VariablePool) (t : String) (v : Segment)
    (hnp : findPlaceholder t.data = Option.none) (hne : t ≠ "")
    (hdot : hasDot t = true) (hv : pool.get (pySplitDot t) = some v) :
    pool.convert_template t = ⟨[v]⟩ := by
  cases t with
  | mk cs =>
    have hnp' : findPlaceholder cs = Option.none := hnp
    unfold VariablePool.convert_template
    have hsplit : variablePatternSplit (String.mk cs).data = [String.mk cs] := by
      show patternSplitAux (cs.length + 1) cs = [String.mk cs]
      simp only [patternSplitAux]
      rw [hnp']
    rw [hsplit]
    have hfil : ([String.mk cs].filter (fun x => x ≠ "")) = [String.mk cs] := by
      simp [List.filter, hne]
    rw [hfil]
    show SegmentGroup.mk [pool.processPart (String.mk cs)] = SegmentGroup.mk [v]
    unfold VariablePool.processPart
    rw [if_pos (hdot : hasDot (String.mk cs) = true)]
    rw [(hv : pool.get (pySplitDot (String.mk cs)) = some v)]

/-- A pool holding only an integer variable at `["n", "x"]`. -/
def c9pool : VariablePool := add1 emptyPool ["n", "x"] (PoolValue.raw (RawValue.int 5))

/-- Witness for C9 at a concrete input: the literal template `"n.x"`
contains no placeholder, yet is replaced by the stored variable. -/
theorem c9_witness :
    c9pool.convert_template "n.x"
      = ⟨[segment_to_variable (build_segment (RawValue.int 5)) ["n", "x"]]⟩ :=
  c9_literal_dotted_resolution c9pool "n.x" _ (by decide) (by decide) (by decide) rfl

end Dify
